import Mathlib

/-!
# The array value of the interpreter (`pkg/eval/array.go`)

A shallow embedding of the array object and of its methods, followed by the
properties established for them.

Conventions of the embedding.

* A Go method with receiver `a *Array` becomes a function that takes the
  receiver and returns a pair: what the call gives back (`Except Error Object`,
  the error being the value the call panics with) and the receiver after the
  call.  A panic keeps the receiver as it stands at that point.
* `Int64` values are carried as `Int`.  The only arithmetic on them is in
  `Pop` (`idx + int64(last+1)` under `idx < 0`), where a negative number and a
  count are added, so the sum lies between the two and cannot overflow.
* `Eval`, the evaluator entry point, is not part of the file and is a parameter
  of every method that calls it.  It gets the scope and may rebind names in
  it, so it returns the scope next to the object.  For `Map` the evaluator is
  also taken with its other effects (`EffectfulEvaluator`, `Array.MapRun`): it
  can panic and can write to the array the loop runs over; `Array.Map` is the
  same method for an evaluator without these effects.  The other functions the
  methods call and the file does not define (`reflect.DeepEqual`, `equal`,
  `marshalJsonObject`, `json.Unmarshal`, `unmarshalArray`) are parameters too.
-/

namespace Monkey

/-! ## The data model -/

/-- The `ast.Expression` interface as far as the array methods inspect it: a
declared parameter is used only through the assertion to `*ast.Identifier`
and the `Value` of that identifier. -/
inductive Expression where
  | Identifier (Value : String)
  | Other (text : String)

/-- The `ast.BlockStatement` of a function body.  The array methods hand it to
the evaluator whole. -/
structure BlockStatement where
  text : String

/-- The `ast.FunctionLiteral` fields the array methods read. -/
structure FunctionLiteral where
  Parameters : List Expression
  Body : BlockStatement

/-- The type discriminant returned by `Type()`. -/
inductive ObjectType where
  | INTEGER_OBJ | UINTEGER_OBJ | FLOAT_OBJ | STRING_OBJ | BOOLEAN_OBJ | NIL_OBJ
  | ARRAY_OBJ | FUNCTION_OBJ | RETURN_VALUE_OBJ
  deriving DecidableEq, Repr

/-- The values of the interface type `Object` that the array methods meet.
`Float` carries the IEEE-754 bit pattern of its `Float64`; `Array` carries the
member list of the array object; `Function` carries the literal of the
closure; `nilInterface` is the nil interface value, which a slot of a
`[]Object` holds until an object is stored in it. -/
inductive Object where
  | Integer (Int64 : Int)
  | UInteger (UInt64 : Nat)
  | Float (Float64 : Nat)
  | String (String : String)
  | Boolean (Bool : Bool)
  | Nil
  | Array (Members : List Object)
  | Function (Literal : FunctionLiteral)
  | ReturnValue (Value : Object)
  | nilInterface

/-- The two ways in which the Go runtime itself stops a method of this file,
and the one in which it stops a method call on the nil interface value. -/
inductive RuntimeFault where
  | IndexOutOfRange (index : Int) (length : Nat)
  | TypeAssertion
  | NilDereference
  deriving DecidableEq, Repr

/-- What a method panics with: one of the four error kinds built by
`NewError(line, kind, ...)`, each with the arguments passed at the call site,
or a fault raised by the Go runtime. -/
inductive Error where
  | ARGUMENTERROR (line : String) (expected : String) (actual : Nat)
  | PARAMTYPEERROR (line : String) (ordinal : String) (method : String)
      (expected : String) (actual : ObjectType)
  | INDEXERROR (line : String) (index : Int)
  | NOMETHODERROR (line : String) (method : String) (type : ObjectType)
  | Runtime (fault : RuntimeFault)
  deriving DecidableEq, Repr

/-- The method `Type()` of each object; the call is stopped by the Go runtime
on the nil interface value. -/
def Object.Type : Object → Except Error ObjectType
  | .Integer _ => .ok .INTEGER_OBJ
  | .UInteger _ => .ok .UINTEGER_OBJ
  | .Float _ => .ok .FLOAT_OBJ
  | .String _ => .ok .STRING_OBJ
  | .Boolean _ => .ok .BOOLEAN_OBJ
  | .Nil => .ok .NIL_OBJ
  | .Array _ => .ok .ARRAY_OBJ
  | .Function _ => .ok .FUNCTION_OBJ
  | .ReturnValue _ => .ok .RETURN_VALUE_OBJ
  | .nilInterface => .error (.Runtime .NilDereference)

/-- The array object: `type Array struct { Members []Object }`. -/
structure Array where
  Members : List Object

/-- Modelled from the spec: the lexical scope, which is not part of the file.
A scope maps names to values in a local store and has an optional parent to
which lookups fall back. -/
inductive Scope where
  | mk (store : String → Option Object) (parent : Option Scope)

/-- Modelled from the spec: `NewScope(parent)` creates a child scope with an
empty local store. -/
def NewScope (parent : Scope) : Scope :=
  Scope.mk (fun _ => none) (some parent)

/-- Modelled from the spec: `Set(name, value)` binds or rebinds the name in the
local store only. -/
def Scope.Set : Scope → String → Object → Scope
  | .mk store parent, name, val =>
    .mk (fun k => if k = name then some val else store k) parent

/-- Modelled from the spec: a lookup reads the local store and falls back to
the parent scope. -/
def Scope.Get : Scope → String → Option Object
  | .mk store none, name => store name
  | .mk store (some p), name =>
    match store name with
    | some v => some v
    | none => p.Get name

/-- Modelled from the spec: the truthiness rule of the interpreter, which is
not part of the file.  Boolean false and Nil are falsy, every other value is
truthy. -/
def IsTrue : Object → Bool
  | .Boolean b => b
  | .Nil => false
  | _ => true

/-- The evaluator entry point `Eval(node, scope)`, as a parameter. -/
abbrev Evaluator := BlockStatement → Scope → Object × Scope

/-- The outcome of a method call: the returned object or the error of the
panic, and the receiver after the call. -/
abbrev Outcome := Except Error Object × Array

/-! ## The methods -/

/-- The member access `a.Members[i]`; the Go runtime panics when `i` is out of
range. -/
def memberAt (ms : List Object) (i : Int) : Except Error Object :=
  if i < 0 then .error (.Runtime (.IndexOutOfRange i ms.length))
  else
    match ms[i.toNat]? with
    | some m => .ok m
    | none => .error (.Runtime (.IndexOutOfRange i ms.length))

/-- The expression `block.Literal.Parameters[i].(*ast.Identifier).Value`: the
index is checked first, then the type assertion. -/
def paramName (block : FunctionLiteral) (i : Nat) : Except Error String :=
  match block.Parameters[i]? with
  | none => .error (.Runtime (.IndexOutOfRange i block.Parameters.length))
  | some (.Identifier v) => .ok v
  | some (.Other _) => .error (.Runtime .TypeAssertion)

/-- The value of `NewError(line, PARAMTYPEERROR, "first", method, expected,
args[0].Type())`: the call of `Type()` comes first. -/
def paramTypeError (line method expected : String) (arg : Object) : Error :=
  match arg.Type with
  | .ok t => .PARAMTYPEERROR line "first" method expected t
  | .error e => e

/-- The statement `if obj, ok := r.(*ReturnValue); ok { r = obj.Value }`. -/
def unwrapReturnValue : Object → Object
  | .ReturnValue v => v
  | r => r

/-- The method `Push`: one argument, appended in place; returns the array. -/
def Array.Push (a : Array) (line : String) (args : List Object) : Outcome :=
  let l := args.length
  if l ≠ 1 then (.error (.ARGUMENTERROR line "1" l), a)
  else
    match args with
    | arg0 :: _ =>
      let a1 : Array := ⟨a.Members ++ [arg0]⟩
      (.ok (.Array a1.Members), a1)
    | [] => (.error (.Runtime (.IndexOutOfRange 0 0)), a)

/-- The method `UnShift`: one argument, put in front in place; returns the
array. -/
def Array.UnShift (a : Array) (line : String) (args : List Object) : Outcome :=
  let l := args.length
  if l ≠ 1 then (.error (.ARGUMENTERROR line "1" l), a)
  else
    match args with
    | arg0 :: _ =>
      let a1 : Array := ⟨[arg0] ++ a.Members⟩
      (.ok (.Array a1.Members), a1)
    | [] => (.error (.Runtime (.IndexOutOfRange 0 0)), a)

/-- The tail of `Pop` and `Shift` once the index has passed its check:
`x := a.Members[idx]; a.Members = append(a.Members[:idx], a.Members[idx+1:]...)`. -/
def removeAt (a : Array) (idx : Int) : Outcome :=
  match memberAt a.Members idx with
  | .error e => (.error e, a)
  | .ok x => (.ok x, ⟨a.Members.take idx.toNat ++ a.Members.drop (idx.toNat + 1)⟩)

/-- The method `Pop`. -/
def Array.Pop (a : Array) (line : String) (args : List Object) : Outcome :=
  let last : Int := (a.Members.length : Int) - 1
  if args.length = 0 then
    if last < 0 then (.error (.INDEXERROR line last), a)
    else
      match memberAt a.Members last with
      | .error e => (.error e, a)
      | .ok popped => (.ok popped, ⟨a.Members.take last.toNat⟩)
  else
    match args with
    | .Integer i :: _ =>
      let idx : Int := if i < 0 then i + (last + 1) else i
      if idx < 0 ∨ idx > last then (.error (.INDEXERROR line idx), a)
      else removeAt a idx
    | _ :: _ => (.error (.Runtime .TypeAssertion), a)
    | [] => (.error (.Runtime (.IndexOutOfRange 0 0)), a)

/-- The method `Shift`. -/
def Array.Shift (a : Array) (line : String) (args : List Object) : Outcome :=
  let last : Int := (a.Members.length : Int) - 1
  if args.length = 0 then
    if last < 0 then (.ok .Nil, a)
    else
      match memberAt a.Members 0 with
      | .error e => (.error e, a)
      | .ok shifted => (.ok shifted, ⟨a.Members.drop 1⟩)
  else
    match args with
    | .Integer idx :: _ =>
      if idx < 0 ∨ idx > last then (.error (.INDEXERROR line idx), a)
      else removeAt a idx
    | _ :: _ => (.error (.Runtime .TypeAssertion), a)
    | [] => (.error (.Runtime (.IndexOutOfRange 0 0)), a)

/-- The loop `for _, v := range ms { arr.Members = append(arr.Members, v) }`
of `Merge`, started on the members collected so far. -/
def appendEach (acc : List Object) (ms : List Object) : List Object :=
  ms.foldl (fun members v => members ++ [v]) acc

/-- The method `Merge`. -/
def Array.Merge (a : Array) (line : String) (args : List Object) : Outcome :=
  if args.length ≠ 1 then (.error (.ARGUMENTERROR line "1" args.length), a)
  else
    match args with
    | .Array m :: _ =>
      let arr : List Object := []
      let arr := appendEach arr a.Members
      let arr := appendEach arr m
      (.ok (.Array arr), a)
    | other :: _ => (.error (paramTypeError line "merge" "*Array" other), a)
    | [] => (.error (.Runtime (.IndexOutOfRange 0 0)), a)

/-- The loop of `Map` over the members still to visit, with the scope `s` the
loop works in and the members collected so far.  The scope is the one made
before the loop; every round rebinds the parameter in it and evaluates the
body in it. -/
def mapLoop (Eval : Evaluator) (block : FunctionLiteral) :
    List Object → Scope → List Object → Except Error (List Object)
  | [], _, members => .ok members
  | argument :: rest, s, members =>
    match paramName block 0 with
    | .error e => .error e
    | .ok name =>
      let s1 := s.Set name argument
      let r := Eval block.Body s1
      mapLoop Eval block rest r.2 (members ++ [unwrapReturnValue r.1])

/-- The method `Map`. -/
def Array.Map (a : Array) (Eval : Evaluator) (line : String) (scope : Scope)
    (args : List Object) : Outcome :=
  if args.length ≠ 1 then (.error (.ARGUMENTERROR line "1" args.length), a)
  else
    match args with
    | .Function block :: _ =>
      let s := NewScope scope
      match mapLoop Eval block a.Members s [] with
      | .error e => (.error e, a)
      | .ok members => (.ok (.Array members), a)
    | other :: _ => (.error (paramTypeError line "map" "*Function" other), a)
    | [] => (.error (.Runtime (.IndexOutOfRange 0 0)), a)

/-- The loop of `Filter`: the condition is the object the evaluator returns,
passed to `IsTrue` as it is. -/
def filterLoop (Eval : Evaluator) (block : FunctionLiteral) :
    List Object → Scope → List Object → Except Error (List Object)
  | [], _, members => .ok members
  | argument :: rest, s, members =>
    match paramName block 0 with
    | .error e => .error e
    | .ok name =>
      let s1 := s.Set name argument
      let cond := Eval block.Body s1
      if IsTrue cond.1 then filterLoop Eval block rest cond.2 (members ++ [argument])
      else filterLoop Eval block rest cond.2 members

/-- The method `Filter`. -/
def Array.Filter (a : Array) (Eval : Evaluator) (line : String) (scope : Scope)
    (args : List Object) : Outcome :=
  if args.length ≠ 1 then (.error (.ARGUMENTERROR line "1" args.length), a)
  else
    match args with
    | .Function block :: _ =>
      let s := NewScope scope
      match filterLoop Eval block a.Members s [] with
      | .error e => (.error e, a)
      | .ok members => (.ok (.Array members), a)
    | other :: _ => (.error (paramTypeError line "filter" "*Function" other), a)
    | [] => (.error (.Runtime (.IndexOutOfRange 0 0)), a)

/-- The two `s.Set` calls before the first evaluation in `Reduce`, and the
value of `start` they leave.  In each call the parameter name is computed
before the value. -/
def reduceInit (block : FunctionLiteral) (ms : List Object) (args : List Object)
    (s : Scope) : Except Error (Scope × Nat) :=
  if args.length = 1 then do
    let p0 ← paramName block 0
    let m0 ← memberAt ms 0
    let s := s.Set p0 m0
    let p1 ← paramName block 1
    let m1 ← memberAt ms 1
    let s := s.Set p1 m1
    pure (s, 1 + 1)
  else do
    let p0 ← paramName block 0
    let seed ← memberAt args 1
    let s := s.Set p0 seed
    let p1 ← paramName block 1
    let m0 ← memberAt ms 0
    let s := s.Set p1 m0
    pure (s, 1)

/-- The loop `for i := start; i < len(a.Members); i++` of `Reduce`, over the
members from `start` on, with the scope and the accumulator `r`. -/
def reduceLoop (Eval : Evaluator) (block : FunctionLiteral) :
    List Object → Scope → Object → Except Error Object
  | [], _, r => .ok r
  | m :: rest, s, r => do
    let p0 ← paramName block 0
    let s := s.Set p0 r
    let p1 ← paramName block 1
    let s := s.Set p1 m
    let r := Eval block.Body s
    reduceLoop Eval block rest r.2 (unwrapReturnValue r.1)

/-- The method `Reduce`.  The arity test is the source's `1 != 2 && l != 1`. -/
def Array.Reduce (a : Array) (Eval : Evaluator) (line : String) (scope : Scope)
    (args : List Object) : Outcome :=
  let l := args.length
  if (1 : Nat) ≠ 2 ∧ l ≠ 1 then (.error (.ARGUMENTERROR line "1|2" l), a)
  else
    match args with
    | .Function block :: _ =>
      let s := NewScope scope
      match reduceInit block a.Members args s with
      | .error e => (.error e, a)
      | .ok (s, start) =>
        let r := Eval block.Body s
        match reduceLoop Eval block (a.Members.drop start) r.2 r.1 with
        | .error e => (.error e, a)
        | .ok r => (.ok r, a)
    | other :: _ => (.error (paramTypeError line "reduce" "*Function" other), a)
    | [] => (.error (.Runtime (.IndexOutOfRange 0 0)), a)

/-- The method `Len`. -/
def Array.Len (a : Array) (line : String) (args : List Object) : Outcome :=
  if args.length ≠ 0 then (.error (.ARGUMENTERROR line "0" args.length), a)
  else (.ok (.Integer (a.Members.length : Int)), a)

/-- The method `Empty`. -/
def Array.Empty (a : Array) (line : String) (args : List Object) : Outcome :=
  let l := args.length
  if l ≠ 0 then (.error (.ARGUMENTERROR line "0" l), a)
  else if a.Members.length = 0 then (.ok (.Boolean true), a)
  else (.ok (.Boolean false), a)

/-- The method `First`. -/
def Array.First (a : Array) (line : String) (args : List Object) : Outcome :=
  let l := args.length
  if l ≠ 0 then (.error (.ARGUMENTERROR line "0" l), a)
  else if a.Members.length = 0 then (.ok .Nil, a)
  else
    match memberAt a.Members 0 with
    | .error e => (.error e, a)
    | .ok m => (.ok m, a)

/-- The method `Last`. -/
def Array.Last (a : Array) (line : String) (args : List Object) : Outcome :=
  let l := args.length
  if l ≠ 0 then (.error (.ARGUMENTERROR line "0" l), a)
  else
    let length := a.Members.length
    if length = 0 then (.ok .Nil, a)
    else
      match memberAt a.Members ((length : Int) - 1) with
      | .error e => (.error e, a)
      | .ok m => (.ok m, a)

/-- The built-in `copy(dst, src)` on member lists: the leading slots of `dst`
take the members of `src`, as many as fit. -/
def copyMembers (dst src : List Object) : List Object :=
  src.take dst.length ++ dst.drop src.length

/-- The method `Tail`: `make([]Object, length+1, length+1)` gives `length+1`
slots holding the nil interface value, and `copy` fills them from
`a.Members`. -/
def Array.Tail (a : Array) (line : String) (args : List Object) : Outcome :=
  let l := args.length
  if l ≠ 0 then (.error (.ARGUMENTERROR line "0" l), a)
  else
    let length := a.Members.length
    if length = 0 then (.ok .Nil, a)
    else
      let newMembers := List.replicate (length + 1) Object.nilInterface
      let newMembers := copyMembers newMembers a.Members
      (.ok (.Array newMembers), a)

/-- Whether a bit pattern of a `float64` is a NaN: exponent bits all set and a
non-zero fraction. -/
def float64IsNaN (b : Nat) : Bool :=
  (b / 2 ^ 52) % 2 ^ 11 == 2047 && b % 2 ^ 52 != 0

/-- The comparison `==` of two `float64` given by their bit patterns: a NaN
equals nothing, the two zeros are equal, otherwise the patterns decide. -/
def float64Eq (x y : Nat) : Bool :=
  !float64IsNaN x && !float64IsNaN y && (x == y || (x % 2 ^ 63 == 0 && y % 2 ^ 63 == 0))

/-- One round of the loop of `Count`: the type switch on `args[0]` and the
comparison with the member `v`, which is asserted to the type of the
argument.  `DeepEqual` is `reflect.DeepEqual` of the Go library. -/
def countMatch (DeepEqual : Object → Object → Bool) (arg v : Object) : Except Error Bool :=
  match arg with
  | .Integer c =>
    match v with
    | .Integer m => .ok (c == m)
    | _ => .error (.Runtime .TypeAssertion)
  | .UInteger c =>
    match v with
    | .UInteger m => .ok (c == m)
    | _ => .error (.Runtime .TypeAssertion)
  | .Float c =>
    match v with
    | .Float m => .ok (float64Eq c m)
    | _ => .error (.Runtime .TypeAssertion)
  | .String c =>
    match v with
    | .String m => .ok (c == m)
    | _ => .error (.Runtime .TypeAssertion)
  | .Boolean c =>
    match v with
    | .Boolean m => .ok (c == m)
    | _ => .error (.Runtime .TypeAssertion)
  | c => .ok (DeepEqual c v)

/-- The loop of `Count` over the members still to visit, with the count so
far. -/
def countLoop (DeepEqual : Object → Object → Bool) (arg : Object) :
    List Object → Nat → Except Error Nat
  | [], count => .ok count
  | v :: rest, count =>
    match countMatch DeepEqual arg v with
    | .error e => .error e
    | .ok true => countLoop DeepEqual arg rest (count + 1)
    | .ok false => countLoop DeepEqual arg rest count

/-- The method `Count`. -/
def Array.Count (a : Array) (DeepEqual : Object → Object → Bool) (line : String)
    (args : List Object) : Outcome :=
  if args.length ≠ 1 then (.error (.ARGUMENTERROR line "1" args.length), a)
  else
    match args with
    | arg0 :: _ =>
      match countLoop DeepEqual arg0 a.Members 0 with
      | .error e => (.error e, a)
      | .ok count => (.ok (.Integer (count : Int)), a)
    | [] => (.error (.Runtime (.IndexOutOfRange 0 0)), a)

/-- The loop of `Includes`; `equal` is the comparison of the interpreter, which
is not part of the file. -/
def includesLoop (equal : Bool → Object → Object → Bool) (arg : Object) :
    List Object → Object
  | [] => .Boolean false
  | v :: rest => if equal true v arg then .Boolean true else includesLoop equal arg rest

/-- The method `Includes`. -/
def Array.Includes (a : Array) (equal : Bool → Object → Object → Bool) (line : String)
    (args : List Object) : Outcome :=
  if args.length ≠ 1 then (.error (.ARGUMENTERROR line "1" args.length), a)
  else
    match args with
    | arg0 :: _ => (.ok (includesLoop equal arg0 a.Members), a)
    | [] => (.error (.Runtime (.IndexOutOfRange 0 0)), a)

/-- One round of the loop of `Index`: the type switch has the cases `*Integer`,
`*UInteger` and `*String`; every other argument goes to `reflect.DeepEqual`. -/
def indexMatch (DeepEqual : Object → Object → Bool) (arg v : Object) : Except Error Bool :=
  match arg with
  | .Integer c =>
    match v with
    | .Integer m => .ok (c == m)
    | _ => .error (.Runtime .TypeAssertion)
  | .UInteger c =>
    match v with
    | .UInteger m => .ok (c == m)
    | _ => .error (.Runtime .TypeAssertion)
  | .String c =>
    match v with
    | .String m => .ok (c == m)
    | _ => .error (.Runtime .TypeAssertion)
  | c => .ok (DeepEqual c v)

/-- The loop of `Index` over the members still to visit, `i` being the index of
the first of them. -/
def indexLoop (DeepEqual : Object → Object → Bool) (arg : Object) :
    List Object → Nat → Except Error Object
  | [], _ => .ok .Nil
  | v :: rest, i =>
    match indexMatch DeepEqual arg v with
    | .error e => .error e
    | .ok true => .ok (.Integer (i : Int))
    | .ok false => indexLoop DeepEqual arg rest (i + 1)

/-- The method `Index`. -/
def Array.Index (a : Array) (DeepEqual : Object → Object → Bool) (line : String)
    (args : List Object) : Outcome :=
  if args.length < 1 ∨ args.length > 1 then (.error (.ARGUMENTERROR line "1" args.length), a)
  else
    match args with
    | arg0 :: _ =>
      match indexLoop DeepEqual arg0 a.Members 0 with
      | .error e => (.error e, a)
      | .ok r => (.ok r, a)
    | [] => (.error (.Runtime (.IndexOutOfRange 0 0)), a)

/-- The functions of the interpreter and of the Go library that the methods
call and the file does not define. -/
structure Collaborators where
  Eval : Evaluator
  DeepEqual : Object → Object → Bool
  equal : Bool → Object → Object → Bool

/-- The method `CallMethod`: dispatch on the method name. -/
def Array.CallMethod (a : Array) (c : Collaborators) (line : String) (scope : Scope)
    (method : String) (args : List Object) : Outcome :=
  if method = "count" then a.Count c.DeepEqual line args
  else if method = "includes" then a.Includes c.equal line args
  else if method = "filter" ∨ method = "grep" then a.Filter c.Eval line scope args
  else if method = "index" then a.Index c.DeepEqual line args
  else if method = "map" then a.Map c.Eval line scope args
  else if method = "merge" then a.Merge line args
  else if method = "push" then a.Push line args
  else if method = "pop" then a.Pop line args
  else if method = "shift" then a.Shift line args
  else if method = "unshift" then a.UnShift line args
  else if method = "reduce" then a.Reduce c.Eval line scope args
  else if method = "empty" then a.Empty line args
  else if method = "len" then a.Len line args
  else if method = "first" ∨ method = "head" then a.First line args
  else if method = "last" then a.Last line args
  else if method = "tail" ∨ method = "rest" then a.Tail line args
  else (.error (.NOMETHODERROR line method .ARRAY_OBJ), a)

/-- The loop of `MarshalJSON` over the members still to visit, `idx` being the
index of the first of them and `out` the buffer.  `marshalJsonObject` is the
serializer of one member, which is not part of the file; it gives the text of
the member or an error. -/
def marshalLoop (marshalJsonObject : Object → Except String String) :
    List Object → Nat → String → Except String String
  | [], _, out => .ok out
  | v :: rest, idx, out =>
    let out1 := if idx ≠ 0 then out ++ "," else out
    match marshalJsonObject v with
    | .error err => .error err
    | .ok res => marshalLoop marshalJsonObject rest (idx + 1) (out1 ++ res)

/-- The method `MarshalJSON`, returning the bytes as text and the `error`
(`none` for nil).  `json.Marshal(nil)` gives the text `null` and no error. -/
def Array.MarshalJSON (a : Array) (marshalJsonObject : Object → Except String String) :
    String × Option String :=
  if a.Members.length = 0 then ("null", none)
  else
    match marshalLoop marshalJsonObject a.Members 0 "[" with
    | .error err => ("", some err)
    | .ok out => (out ++ "]", none)

/-- The value `json.Unmarshal` stores in an `interface{}`. -/
inductive JsonValue where
  | null
  | bool (b : Bool)
  | number (float64 : Nat)
  | string (s : String)
  | array (elems : List JsonValue)
  | object (fields : List (String × JsonValue))

/-- What a call of `UnmarshalJSON` leaves behind: the `error` it returns
(`none` for nil) or the panic, the array the receiver points to, and the array
the local variable `a` points to when the method returns. -/
structure Unmarshalled where
  err : Except Error (Option String)
  receiver : Array
  a : Array

/-- The method `UnmarshalJSON`.  Every statement `a = ...` of the method assigns
to the local pointer variable `a`; no statement writes through it, so the
array of the receiver is the one given.  `jsonUnmarshal` is `json.Unmarshal`
into an `interface{}` and `unmarshalArray` the converter of the interpreter,
whose `error` result the method drops. -/
def Array.UnmarshalJSON (a : Array) (jsonUnmarshal : String → Except String JsonValue)
    (unmarshalArray : List JsonValue → Object × Option String) (b : String) :
    Unmarshalled :=
  if b = "null" then ⟨.ok none, a, ⟨[]⟩⟩
  else
    match jsonUnmarshal b with
    | .error err => ⟨.ok (some err), a, ⟨[]⟩⟩
    | .ok (.array elems) =>
      match (unmarshalArray elems).1 with
      | .Array ms => ⟨.ok none, a, ⟨ms⟩⟩
      | _ => ⟨.error (.Runtime .TypeAssertion), a, a⟩
    | .ok _ => ⟨.ok (some "object is not a array"), a, ⟨[]⟩⟩

/-- The position the index argument of `pop` denotes in an array of length `n`:
a negative index counts from the end. -/
def popPosition (n : Nat) (idx : Int) : Int :=
  if idx < 0 then idx + (n : Int) else idx

/-- The call `shift()` made `m` times in a row on the same array: the outcomes
of the calls in order, and the array after the last call. -/
def shiftRepeat (line : String) : Nat → Array → List (Except Error Object) × Array
  | 0, a => ([], a)
  | m + 1, a =>
    let r := a.Shift line []
    let rest := shiftRepeat line m r.2
    (r.1 :: rest.1, rest.2)

/-- The scopes in which the loop of `Map` evaluates the body, one per member in
order, when the parameter is named `p` and the loop starts in scope `s`: each
is the scope left by the evaluation before it with `p` rebound to the
member. -/
def mapScopes (Eval : Evaluator) (body : BlockStatement) (p : String) :
    List Object → Scope → List Scope
  | [], _ => []
  | x :: xs, s => s.Set p x :: mapScopes Eval body p xs (Eval body (s.Set p x)).2

/-- A scope with no binding and no parent. -/
def emptyScope : Scope := Scope.mk (fun _ => none) none

/-- An evaluator for the body `x * 2`: it reads `x` and leaves the scope as it
is. -/
def evalDouble : Evaluator := fun _ s =>
  match s.Get "x" with
  | some (.Integer n) => (.Integer (n * 2), s)
  | _ => (.Nil, s)

/-- An evaluator for the body `return false`: an explicit return comes back
wrapped in a `ReturnValue`. -/
def evalReturnFalse : Evaluator := fun _ s => (.ReturnValue (.Boolean false), s)

/-- An evaluator for the body `return acc + x`: the sum comes back wrapped in
a `ReturnValue`. -/
def evalReturnSum : Evaluator := fun _ s =>
  match s.Get "acc", s.Get "x" with
  | some (.Integer m), some (.Integer n) => (.ReturnValue (.Integer (m + n)), s)
  | _, _ => (.Nil, s)

/-- An evaluator for the body `acc + x`. -/
def evalSum : Evaluator := fun _ s =>
  match s.Get "acc", s.Get "x" with
  | some (.Integer m), some (.Integer n) => (.Integer (m + n), s)
  | _, _ => (.Nil, s)

/-- The scopes in which the loop of `Reduce` evaluates the body, one per member
visited, when the parameters are named `p0` and `p1`, the loop starts in scope
`s` and the accumulator is `r`: each is the scope left by the evaluation
before it with `p0` rebound to the accumulator and `p1` to the member. -/
def reduceScopes (Eval : Evaluator) (body : BlockStatement) (p0 p1 : String) :
    List Object → Scope → Object → List Scope
  | [], _, _ => []
  | m :: rest, s, r =>
    let t := (s.Set p0 r).Set p1 m
    t :: reduceScopes Eval body p0 p1 rest (Eval body t).2 (unwrapReturnValue (Eval body t).1)

/-- An evaluator for a body that reports whether the name `seen` is bound and
binds it: a body that binds a name of its own in the scope it runs in. -/
def evalMarking : Evaluator := fun _ s =>
  match s.Get "seen" with
  | some _ => (.Boolean true, s)
  | none => (.Boolean false, s.Set "seen" (.Boolean true))

/-- The texts, each with a comma in front. -/
def commaPrefixed : List String → String
  | [] => ""
  | r :: rs => "," ++ r ++ commaPrefixed rs

/-- The texts in order, separated by single commas. -/
def commaSeparated : List String → String
  | [] => ""
  | r :: rs => r ++ commaPrefixed rs

/-- The memory an evaluation of a body reaches besides its scope while `Map`
runs: the member list of the receiver, which the body can change through any
name bound to the array, and the slots of the backing array that the `range`
of the loop reads (`slots i` is slot `i` of the slice the loop captured when
it began). -/
structure Memory where
  Members : List Object
  slots : Nat → Object

/-- What an evaluation of a body leaves: the object it returns or the error it
panics with, the scope, and the memory. -/
structure Evaluated where
  result : Except Error Object
  scope : Scope
  memory : Memory

/-- The evaluator entry point `Eval(node, scope)` with its effects: it can
panic, rebind names in the scope and write to the memory. -/
abbrev EffectfulEvaluator := BlockStatement → Scope → Memory → Evaluated

/-- The memory when a method starts on the array: the slice `a.Members` and the
slots it occupies. -/
def Array.memory (a : Array) : Memory :=
  ⟨a.Members, fun i => a.Members.getD i Object.nilInterface⟩

/-- The loop `for _, argument := range a.Members` of `Map` run against the
memory: `k` rounds are left, `i` is the index of the next one, and `argument`
is read from slot `i` when the round begins.  A panic of the evaluator ends
the loop with the memory as the evaluation left it. -/
def mapRange (Eval : EffectfulEvaluator) (block : FunctionLiteral) :
    Nat → Nat → Scope → Memory → List Object → Except Error (List Object) × Memory
  | 0, _, _, mem, members => (.ok members, mem)
  | k + 1, i, s, mem, members =>
    let argument := mem.slots i
    match paramName block 0 with
    | .error e => (.error e, mem)
    | .ok name =>
      let s1 := s.Set name argument
      let r := Eval block.Body s1 mem
      match r.result with
      | .error e => (.error e, r.memory)
      | .ok v => mapRange Eval block k (i + 1) r.scope r.memory (members ++ [unwrapReturnValue v])

/-- The method `Map` run with an evaluator that has effects: the number of
rounds is the length of `a.Members` when the loop begins, and the receiver
after the call has the members the evaluations left. -/
def Array.MapRun (a : Array) (Eval : EffectfulEvaluator) (line : String) (scope : Scope)
    (args : List Object) : Outcome :=
  if args.length ≠ 1 then (.error (.ARGUMENTERROR line "1" args.length), a)
  else
    match args with
    | .Function block :: _ =>
      let s := NewScope scope
      let r := mapRange Eval block a.Members.length 0 s a.memory []
      match r.1 with
      | .error e => (.error e, ⟨r.2.Members⟩)
      | .ok members => (.ok (.Array members), ⟨r.2.Members⟩)
    | other :: _ => (.error (paramTypeError line "map" "*Function" other), a)
    | [] => (.error (.Runtime (.IndexOutOfRange 0 0)), a)

/-- An evaluator without effects seen as one with effects: it never panics and
leaves the memory as it is. -/
def withoutEffects (Eval : Evaluator) : EffectfulEvaluator := fun body s mem =>
  ⟨.ok (Eval body s).1, (Eval body s).2, mem⟩

/-- The evaluator without effects that an evaluator induces at a memory `mem`:
the object and the scope of each evaluation started in `mem` (Nil standing
for a panic). -/
def atMemory (Eval : EffectfulEvaluator) (mem : Memory) : Evaluator := fun body s =>
  (match (Eval body s mem).result with
    | .ok v => v
    | .error _ => Object.Nil,
   (Eval body s mem).scope)

/-- An evaluator for the bodies `x * 2` and `return x * 2`; the second comes
back wrapped in a `ReturnValue`, any other body gives Nil. -/
def evalTimesTwo : Evaluator := fun body s =>
  match s.Get "x" with
  | some (.Integer n) =>
    if body.text = "x * 2" then (.Integer (n * 2), s)
    else if body.text = "return x * 2" then (.ReturnValue (.Integer (n * 2)), s)
    else (.Nil, s)
  | _ => (.Nil, s)

/-- An evaluator for the body `a.push(x); x`, `a` being the receiver of the
running `map`: the member list of the receiver grows by the value of `x`; the
slots the loop reads are not written, the append going past them or to a new
backing array. -/
def evalPushOntoReceiver : EffectfulEvaluator := fun _ s mem =>
  match s.Get "x" with
  | some v => ⟨.ok v, s, ⟨mem.Members ++ [v], mem.slots⟩⟩
  | none => ⟨.ok .Nil, s, mem⟩

/-- An evaluator for the body `[].pop()`, which panics with the index error. -/
def evalPopEmpty : EffectfulEvaluator := fun _ s mem =>
  ⟨.error (.INDEXERROR "1" (-1)), s, mem⟩

/-! ## Properties -/

/-- The appending loop of `Merge` yields the members collected so far followed
by the members visited. -/
theorem appendEach_eq (acc ms : List Object) : appendEach acc ms = acc ++ ms := by
  induction ms generalizing acc with
  | nil => simp [appendEach]
  | cons m rest ih =>
    have h := ih (acc ++ [m])
    simp only [appendEach, List.foldl_cons] at h ⊢
    rw [h]
    simp

/-- The member access succeeds on the last member of a non-empty list. -/
theorem memberAt_last (xs : List Object) (x : Object) :
    memberAt (xs ++ [x]) (((xs ++ [x]).length : Int) - 1) = .ok x := by
  have h : (((xs ++ [x]).length : Int) - 1) = (xs.length : Int) := by
    simp
  rw [h]
  simp [memberAt]

/-- C5: for all arrays A and B, `A.merge(B)` returns a new array whose members
are the members of A followed by the members of B, of length len(A) + len(B),
and the receiver A keeps its members (B, an argument, is only read). -/
theorem Merge_appends (a : Array) (line : String) (B : List Object) :
    a.Merge line [Object.Array B] = (.ok (Object.Array (a.Members ++ B)), a) ∧
      (a.Members ++ B).length = a.Members.length + B.length := by
  constructor
  · simp [Array.Merge, appendEach_eq]
  · simp

/-- C6: for every array A and value v, `A.push(v)` appends v, and the `pop()`
that follows returns v without failing and leaves A with exactly the member
list it had before the push. -/
theorem Push_then_Pop (a : Array) (line line2 : String) (v : Object) :
    a.Push line [v] = (.ok (Object.Array (a.Members ++ [v])), ⟨a.Members ++ [v]⟩) ∧
      (a.Push line [v]).2.Pop line2 [] = (.ok v, a) := by
  constructor
  · simp [Array.Push]
  · have h : (a.Push line [v]).2 = ⟨a.Members ++ [v]⟩ := by simp [Array.Push]
    rw [h]
    have hm := memberAt_last a.Members v
    simp only [Array.Pop, List.length_nil, if_true]
    rw [hm]
    simp

/-- C7: for every array A and value v, `A.unshift(v)` puts v at index 0 with the
former members after it in order, and the `shift()` that follows returns v and
leaves A with exactly the member list it had before the unshift. -/
theorem UnShift_then_Shift (a : Array) (line line2 : String) (v : Object) :
    a.UnShift line [v] = (.ok (Object.Array (v :: a.Members)), ⟨v :: a.Members⟩) ∧
      (a.UnShift line [v]).2.Shift line2 [] = (.ok v, a) := by
  constructor
  · simp [Array.UnShift]
  · have h : (a.UnShift line [v]).2 = ⟨v :: a.Members⟩ := by simp [Array.UnShift]
    rw [h]
    simp [Array.Shift, memberAt]

/-- C8: `pop()` fails exactly on the empty array; there it fails with the index
error carrying -1 and the array stays empty; on a non-empty array it returns
the last member and leaves the members before it, in order. -/
theorem Pop_noarg (line : String) :
    (∀ a : Array, (∃ e, (a.Pop line []).1 = .error e) ↔ a.Members = []) ∧
      Array.Pop ⟨[]⟩ line [] = (.error (Error.INDEXERROR line (-1)), ⟨[]⟩) ∧
      (∀ (xs : List Object) (x : Object),
        Array.Pop ⟨xs ++ [x]⟩ line [] = (.ok x, ⟨xs⟩) ∧
          (xs ++ [x])[(xs ++ [x]).length - 1]? = some x ∧
          xs = (xs ++ [x]).take ((xs ++ [x]).length - 1)) := by
  have hne : ∀ (xs : List Object) (x : Object),
      Array.Pop ⟨xs ++ [x]⟩ line [] = (.ok x, ⟨xs⟩) := by
    intro xs x
    have hm := memberAt_last xs x
    simp only [Array.Pop, List.length_nil, if_true]
    rw [hm]
    simp
  refine ⟨?_, ?_, ?_⟩
  · intro a
    constructor
    · rintro ⟨e, he⟩
      by_contra hcon
      obtain ⟨xs, x, hx⟩ : ∃ xs x, a.Members = xs ++ [x] :=
        ⟨a.Members.dropLast, a.Members.getLast hcon,
          (List.dropLast_append_getLast hcon).symm⟩
      have ha : a = ⟨xs ++ [x]⟩ := by cases a; simp_all
      rw [ha, hne] at he
      simp at he
    · intro h
      have ha : a = ⟨[]⟩ := by cases a; simp_all
      rw [ha]
      exact ⟨Error.INDEXERROR line (-1), by simp [Array.Pop]⟩
  · simp [Array.Pop]
  · intro xs x
    exact ⟨hne xs x, by simp, by simp⟩

/-- C9: for every array A of length n and Integer argument idx, with k the
position idx denotes (idx + n when idx is negative, idx otherwise): when
0 <= k < n, `A.pop(idx)` returns the member at position k and A becomes its
member list with position k removed, of length n - 1; otherwise the call fails
with the index error (carrying k) and the members of A are unchanged.
`[1,2,3].pop(-1)` returns 3 and leaves `[1,2]`. -/
theorem Pop_index (a : Array) (line : String) (idx : Int) :
    ((0 ≤ popPosition a.Members.length idx ∧
        popPosition a.Members.length idx < a.Members.length) →
      ∃ x, a.Members[(popPosition a.Members.length idx).toNat]? = some x ∧
        a.Pop line [Object.Integer idx] =
          (.ok x, ⟨a.Members.eraseIdx (popPosition a.Members.length idx).toNat⟩) ∧
        (a.Members.eraseIdx (popPosition a.Members.length idx).toNat).length
          = a.Members.length - 1) ∧
    (¬ (0 ≤ popPosition a.Members.length idx ∧
        popPosition a.Members.length idx < a.Members.length) →
      a.Pop line [Object.Integer idx] =
        (.error (Error.INDEXERROR line (popPosition a.Members.length idx)), a)) ∧
    Array.Pop ⟨[Object.Integer 1, Object.Integer 2, Object.Integer 3]⟩ line
        [Object.Integer (-1)] =
      (.ok (Object.Integer 3), ⟨[Object.Integer 1, Object.Integer 2]⟩) := by
  have hk : (if idx < 0 then idx + ((a.Members.length : Int) - 1 + 1) else idx)
      = popPosition a.Members.length idx := by
    simp [popPosition]
  refine ⟨?_, ?_, ?_⟩
  · rintro ⟨h0, h1⟩
    have hlt : (popPosition a.Members.length idx).toNat < a.Members.length := by omega
    refine ⟨a.Members[(popPosition a.Members.length idx).toNat], ?_, ?_, ?_⟩
    · simp [hlt]
    · simp only [Array.Pop, List.length_cons, List.length_nil]
      rw [hk]
      have hguard : ¬ (popPosition a.Members.length idx < 0 ∨
          popPosition a.Members.length idx > (a.Members.length : Int) - 1) := by omega
      simp only [Nat.zero_add, one_ne_zero, if_false, hguard]
      have hnot : ¬ popPosition a.Members.length idx < 0 := by omega
      simp [removeAt, memberAt, hnot, hlt, List.eraseIdx_eq_take_drop_succ]
    · rw [List.length_eraseIdx]
      simp [hlt]
  · intro h
    simp only [Array.Pop, List.length_cons, List.length_nil]
    rw [hk]
    have hguard : (popPosition a.Members.length idx < 0 ∨
        popPosition a.Members.length idx > (a.Members.length : Int) - 1) := by omega
    simp [hguard]
  · simp [Array.Pop, removeAt, memberAt]

/-- The call `shift()` on an empty array returns Nil and changes nothing. -/
theorem Shift_nil (line : String) : Array.Shift ⟨[]⟩ line [] = (.ok Object.Nil, ⟨[]⟩) := by
  simp [Array.Shift]

/-- The call `shift()` on a non-empty array returns the first member and leaves
the others. -/
theorem Shift_cons (line : String) (x : Object) (xs : List Object) :
    Array.Shift ⟨x :: xs⟩ line [] = (.ok x, ⟨xs⟩) := by
  simp [Array.Shift, memberAt]

/-- Repeating `shift()` gives the leading members in order, then Nil, and
leaves the members not yet taken. -/
theorem shiftRepeat_eq (line : String) (m : Nat) (ms : List Object) :
    shiftRepeat line m ⟨ms⟩ =
      ((ms.take m).map Except.ok ++ List.replicate (m - ms.length) (Except.ok Object.Nil),
        ⟨ms.drop m⟩) := by
  induction m generalizing ms with
  | zero => simp [shiftRepeat]
  | succ m ih =>
    cases ms with
    | nil =>
      have h := ih []
      simp only [shiftRepeat, Shift_nil, h]
      simp [List.replicate_succ]
    | cons x xs =>
      have h := ih xs
      simp only [shiftRepeat, Shift_cons, h]
      simp

/-- C10: `shift()` never fails: on an empty array it returns Nil and the array
stays empty, on a non-empty array it returns member 0 and leaves the former
members 1..n-1 in order; so `m` calls in a row on an array of length n return
its first min(m, n) members in order followed by Nil for every later call, and
leave the members not yet returned. -/
theorem Shift_noarg (line : String) :
    (∀ a : Array, ∃ v a1, a.Shift line [] = (.ok v, a1)) ∧
      Array.Shift ⟨[]⟩ line [] = (.ok Object.Nil, ⟨[]⟩) ∧
      (∀ (x : Object) (xs : List Object), Array.Shift ⟨x :: xs⟩ line [] = (.ok x, ⟨xs⟩)) ∧
      (∀ (a : Array) (m : Nat),
        shiftRepeat line m a =
          ((a.Members.take m).map Except.ok
              ++ List.replicate (m - a.Members.length) (Except.ok Object.Nil),
            ⟨a.Members.drop m⟩)) := by
  refine ⟨?_, Shift_nil line, Shift_cons line, ?_⟩
  · rintro ⟨ms⟩
    cases ms with
    | nil => exact ⟨_, _, Shift_nil line⟩
    | cons x xs => exact ⟨_, _, Shift_cons line x xs⟩
  · rintro ⟨ms⟩ m
    exact shiftRepeat_eq line m ms

/-- A name just set in a scope is found there with the value set. -/
theorem Scope.Get_Set (s : Scope) (p : String) (v : Object) :
    (s.Set p v).Get p = some v := by
  cases s with
  | mk store parent =>
    cases parent with
    | none => simp [Scope.Set, Scope.Get]
    | some q => simp [Scope.Set, Scope.Get]

/-- The loop of `Map` collects, after the members it starts with, the unwrapped
result of the body in each scope of `mapScopes`. -/
theorem mapLoop_eq (Eval : Evaluator) (block : FunctionLiteral) (p : String)
    (hp : paramName block 0 = .ok p) (ms : List Object) (s : Scope) (acc : List Object) :
    mapLoop Eval block ms s acc =
      .ok (acc ++ (mapScopes Eval block.Body p ms s).map
        (fun t => unwrapReturnValue (Eval block.Body t).1)) := by
  induction ms generalizing s acc with
  | nil => simp [mapLoop, mapScopes]
  | cons x xs ih =>
    simp only [mapLoop, hp, mapScopes]
    rw [ih]
    simp

/-- There is one scope of `mapScopes` per member. -/
theorem mapScopes_length (Eval : Evaluator) (body : BlockStatement) (p : String)
    (ms : List Object) (s : Scope) : (mapScopes Eval body p ms s).length = ms.length := by
  induction ms generalizing s with
  | nil => simp [mapScopes]
  | cons x xs ih => simp [mapScopes, ih]

/-- The scope of `mapScopes` at position i has the parameter bound to member
i. -/
theorem mapScopes_bound (Eval : Evaluator) (body : BlockStatement) (p : String)
    (ms : List Object) (s : Scope) (i : Nat) (x : Object) (hx : ms[i]? = some x) :
    ∃ t, (mapScopes Eval body p ms s)[i]? = some t ∧ t.Get p = some x := by
  induction ms generalizing s i with
  | nil => simp at hx
  | cons y ys ih =>
    cases i with
    | zero =>
      simp at hx
      subst hx
      exact ⟨s.Set p y, by simp [mapScopes], Scope.Get_Set s p y⟩
    | succ j =>
      simp at hx
      obtain ⟨t, ht, hg⟩ := ih (Eval body (s.Set p y)).2 j hx
      exact ⟨t, by simpa [mapScopes] using ht, hg⟩

/-- C2: `Filter` passes the object returned by the evaluator to `IsTrue` without
unwrapping it.  On `[1]` with a closure whose body is `return false` the
evaluator returns a `ReturnValue` holding false; the member is kept, although
the condition is falsy once unwrapped. -/
theorem Filter_keeps_on_wrapped_false (line : String) (body : BlockStatement) :
    Array.Filter ⟨[Object.Integer 1]⟩ evalReturnFalse line emptyScope
        [Object.Function ⟨[Expression.Identifier "x"], body⟩]
      = (.ok (Object.Array [Object.Integer 1]), ⟨[Object.Integer 1]⟩) ∧
      (∀ s : Scope, IsTrue (unwrapReturnValue (evalReturnFalse body s).1) = false) := by
  constructor
  · simp [Array.Filter, filterLoop, paramName, evalReturnFalse, IsTrue]
  · intro s
    simp [evalReturnFalse, unwrapReturnValue, IsTrue]

/-- C3: `Reduce` without a seed does not unwrap the result of its first
evaluation.  On `[1,2]` with a closure whose body is `return acc + x` the call
returns the `ReturnValue` holding 3 and not 3; with the body `acc + x`,
`[1,2,3,4].reduce` is 10. -/
theorem Reduce_first_result_wrapped (line : String) (body : BlockStatement) :
    Array.Reduce ⟨[Object.Integer 1, Object.Integer 2]⟩ evalReturnSum line emptyScope
        [Object.Function ⟨[Expression.Identifier "acc", Expression.Identifier "x"], body⟩]
      = (.ok (Object.ReturnValue (Object.Integer 3)),
          ⟨[Object.Integer 1, Object.Integer 2]⟩) ∧
      Array.Reduce ⟨[Object.Integer 1, Object.Integer 2, Object.Integer 3, Object.Integer 4]⟩
          evalSum line emptyScope
          [Object.Function ⟨[Expression.Identifier "acc", Expression.Identifier "x"], body⟩]
        = (.ok (Object.Integer 10),
            ⟨[Object.Integer 1, Object.Integer 2, Object.Integer 3, Object.Integer 4]⟩) := by
  constructor
  · simp [Array.Reduce, reduceInit, reduceLoop, paramName, memberAt, evalReturnSum,
      NewScope, Scope.Set, Scope.Get, emptyScope, bind, Except.bind, pure, Except.pure]
  · simp [Array.Reduce, reduceInit, reduceLoop, paramName, memberAt, evalSum,
      NewScope, Scope.Set, Scope.Get, emptyScope, bind, Except.bind, pure, Except.pure,
      unwrapReturnValue]

/-- C4: `Reduce` called with two arguments, a closure and a seed, always fails
with the argument error `("1|2", 2)`, whatever the array, the closure and the
seed; so does `[1,2,3].reduce((acc,x) -> acc + x, 100)`. -/
theorem Reduce_seeded_fails (Eval : Evaluator) (a : Array) (line : String) (scope : Scope)
    (f seed : Object) (body : BlockStatement) :
    a.Reduce Eval line scope [f, seed] = (.error (Error.ARGUMENTERROR line "1|2" 2), a) ∧
      Array.Reduce ⟨[Object.Integer 1, Object.Integer 2, Object.Integer 3]⟩ evalSum line
          emptyScope
          [Object.Function ⟨[Expression.Identifier "acc", Expression.Identifier "x"], body⟩,
            Object.Integer 100]
        = (.error (Error.ARGUMENTERROR line "1|2" 2),
            ⟨[Object.Integer 1, Object.Integer 2, Object.Integer 3]⟩) := by
  constructor <;> simp [Array.Reduce]

/-- C11: for every array A of length n and Integer argument idx, `A.shift(idx)`
uses idx as it is: when 0 <= idx < n it returns the member at position idx and
A becomes its member list with that position removed; for every other idx,
every negative one included, it fails with the index error carrying idx and
the members of A are unchanged.  `[1,2,3].shift(-1)` fails. -/
theorem Shift_index (a : Array) (line : String) (idx : Int) :
    ((0 ≤ idx ∧ idx < a.Members.length) →
      ∃ x, a.Members[idx.toNat]? = some x ∧
        a.Shift line [Object.Integer idx] = (.ok x, ⟨a.Members.eraseIdx idx.toNat⟩)) ∧
    (¬ (0 ≤ idx ∧ idx < a.Members.length) →
      a.Shift line [Object.Integer idx] = (.error (Error.INDEXERROR line idx), a)) ∧
    Array.Shift ⟨[Object.Integer 1, Object.Integer 2, Object.Integer 3]⟩ line
        [Object.Integer (-1)] =
      (.error (Error.INDEXERROR line (-1)),
        ⟨[Object.Integer 1, Object.Integer 2, Object.Integer 3]⟩) := by
  refine ⟨?_, ?_, ?_⟩
  · rintro ⟨h0, h1⟩
    have hlt : idx.toNat < a.Members.length := by omega
    refine ⟨a.Members[idx.toNat], by simp [hlt], ?_⟩
    have hguard : ¬ (idx < 0 ∨ idx > (a.Members.length : Int) - 1) := by omega
    have hnot : ¬ idx < 0 := by omega
    simp only [Array.Shift, List.length_cons, List.length_nil, Nat.zero_add, one_ne_zero,
      if_false, hguard]
    simp [removeAt, memberAt, hnot, hlt, List.eraseIdx_eq_take_drop_succ]
  · intro h
    have hguard : (idx < 0 ∨ idx > (a.Members.length : Int) - 1) := by omega
    simp [Array.Shift, hguard]
  · simp [Array.Shift]

/-- Copying a member list into one slot more than it has leaves the last slot
as it was. -/
theorem copyMembers_replicate (ms : List Object) (z : Object) :
    copyMembers (List.replicate (ms.length + 1) z) ms = ms ++ [z] := by
  have h1 : ms.take (ms.length + 1) = ms := List.take_of_length_le (by omega)
  have h2 : (List.replicate (ms.length + 1) z).drop ms.length = [z] := by
    rw [List.drop_replicate]
    simp
  simp only [copyMembers, List.length_replicate, h1, h2]

/-- C12: `Tail` on a non-empty array returns a new array of one member more than
the receiver, namely all its members followed by a slot holding the nil
interface value; `[1,2,3].tail()` has four members and starts with 1.  On the
empty array it returns Nil.  The receiver is unchanged. -/
theorem Tail_copies_all (line : String) (x : Object) (xs : List Object) :
    Array.Tail ⟨x :: xs⟩ line [] =
        (.ok (Object.Array (x :: xs ++ [Object.nilInterface])), ⟨x :: xs⟩) ∧
      Array.Tail ⟨[Object.Integer 1, Object.Integer 2, Object.Integer 3]⟩ line [] =
        (.ok (Object.Array [Object.Integer 1, Object.Integer 2, Object.Integer 3,
            Object.nilInterface]),
          ⟨[Object.Integer 1, Object.Integer 2, Object.Integer 3]⟩) ∧
      Array.Tail ⟨[]⟩ line [] = (.ok Object.Nil, ⟨[]⟩) := by
  have h := copyMembers_replicate (x :: xs) Object.nilInterface
  refine ⟨?_, ?_, ?_⟩
  · simp only [Array.Tail, List.length_nil, List.length_cons] at h ⊢
    simp [h]
  · simp [Array.Tail, copyMembers]
  · simp [Array.Tail]

/-- C13: `Count` asserts every member to the type of the argument when the
argument is an Integer, UInteger, Float, String or Boolean.  On `["a"]` with
the argument 1 the assertion `v.(*Integer)` stops the call, whatever
`reflect.DeepEqual` does; the claim expects the count 0. -/
theorem Count_mixed_panics (DeepEqual : Object → Object → Bool) (line : String) :
    Array.Count ⟨[Object.String "a"]⟩ DeepEqual line [Object.Integer 1] =
      (.error (Error.Runtime RuntimeFault.TypeAssertion), ⟨[Object.String "a"]⟩) := by
  simp [Array.Count, countLoop, countMatch]

/-- C14: `Index` asserts every member to the type of the argument when the
argument is an Integer, UInteger or String.  On `["a"]` with the argument 1 the
assertion `v.(*Integer)` stops the call, whatever `reflect.DeepEqual` does; the
claim expects Nil. -/
theorem Index_mixed_panics (DeepEqual : Object → Object → Bool) (line : String) :
    Array.Index ⟨[Object.String "a"]⟩ DeepEqual line [Object.Integer 1] =
      (.error (Error.Runtime RuntimeFault.TypeAssertion), ⟨[Object.String "a"]⟩) := by
  simp [Array.Index, indexLoop, indexMatch]

/-- C15: `pop` and `shift` have no test of the argument count: called with two
arguments on `[1]`, each takes the first argument as the index, removes member
0 and returns it.  `reduce` called with two arguments, a documented count,
fails with the argument error. -/
theorem Pop_Shift_no_arity_check (c : Collaborators) (line : String) (scope : Scope)
    (f seed : Object) (a : Array) :
    Array.CallMethod ⟨[Object.Integer 1]⟩ c line scope "pop"
        [Object.Integer 0, Object.Integer 0] = (.ok (Object.Integer 1), ⟨[]⟩) ∧
      Array.CallMethod ⟨[Object.Integer 1]⟩ c line scope "shift"
        [Object.Integer 0, Object.Integer 0] = (.ok (Object.Integer 1), ⟨[]⟩) ∧
      a.CallMethod c line scope "reduce" [f, seed] =
        (.error (Error.ARGUMENTERROR line "1|2" 2), a) := by
  refine ⟨?_, ?_, ?_⟩
  · simp [Array.CallMethod, Array.Pop, removeAt, memberAt]
  · simp [Array.CallMethod, Array.Shift, removeAt, memberAt]
  · simp [Array.CallMethod, Array.Reduce]

/-- C20: for an array with fewer than two members and a closure with two
declared parameters, `reduce` with the closure as only argument stops on the
member access: on member 0 of the empty array, on member 1 of a one-member
array.  The outcome is the same for every evaluator, the body not being
evaluated, it is a fault of the Go runtime and none of the four error kinds,
and the members are unchanged. -/
theorem Reduce_short_array (Eval : Evaluator) (line : String) (scope : Scope)
    (p0 p1 : String) (body : BlockStatement) (x : Object) :
    Array.Reduce ⟨[]⟩ Eval line scope
        [Object.Function ⟨[Expression.Identifier p0, Expression.Identifier p1], body⟩] =
        (.error (Error.Runtime (RuntimeFault.IndexOutOfRange 0 0)), ⟨[]⟩) ∧
      Array.Reduce ⟨[x]⟩ Eval line scope
        [Object.Function ⟨[Expression.Identifier p0, Expression.Identifier p1], body⟩] =
        (.error (Error.Runtime (RuntimeFault.IndexOutOfRange 1 1)), ⟨[x]⟩) := by
  constructor <;>
    simp [Array.Reduce, reduceInit, paramName, memberAt, bind, Except.bind, pure, Except.pure]

/-- C16, as stated, fails: `map` with a closure of two declared parameters on
`[1]` does not fail; it binds the first parameter and returns `[2]`. -/
theorem Map_accepts_two_parameters :
    Array.Map ⟨[Object.Integer 1]⟩ evalDouble "1" emptyScope
        [Object.Function ⟨[Expression.Identifier "x", Expression.Identifier "y"], ⟨"x * 2"⟩⟩]
      = (.ok (Object.Array [Object.Integer 2]), ⟨[Object.Integer 1]⟩) ∧
    ¬ ∃ e, (Array.Map ⟨[Object.Integer 1]⟩ evalDouble "1" emptyScope
        [Object.Function ⟨[Expression.Identifier "x", Expression.Identifier "y"], ⟨"x * 2"⟩⟩]).1
      = .error e := by
  have h : Array.Map ⟨[Object.Integer 1]⟩ evalDouble "1" emptyScope
        [Object.Function ⟨[Expression.Identifier "x", Expression.Identifier "y"], ⟨"x * 2"⟩⟩]
      = (.ok (Object.Array [Object.Integer 2]), ⟨[Object.Integer 1]⟩) := by
    simp [Array.Map, mapLoop, paramName, evalDouble, NewScope, Scope.Set, Scope.Get,
      emptyScope, unwrapReturnValue]
  refine ⟨h, ?_⟩
  rw [h]
  simp

/-- C16, amended: `filter`, `map` and `reduce`, called with one argument that is
an object of a type other than Function, and `merge`, called with one argument
that is an object of a type other than Array, fail with the parameter type
error carrying "first", the method name, the expected kind and the type of the
argument; the outcome is the same for every evaluator, the body not being
evaluated, and the receiver is unchanged. -/
theorem ParamTypeError_on_wrong_kind (Eval : Evaluator) (a : Array) (line : String)
    (scope : Scope) (f m : Object) (tf tm : ObjectType)
    (hf : f.Type = .ok tf) (hnf : tf ≠ ObjectType.FUNCTION_OBJ)
    (hm : m.Type = .ok tm) (hnm : tm ≠ ObjectType.ARRAY_OBJ) :
    a.Filter Eval line scope [f] =
        (.error (Error.PARAMTYPEERROR line "first" "filter" "*Function" tf), a) ∧
      a.Map Eval line scope [f] =
        (.error (Error.PARAMTYPEERROR line "first" "map" "*Function" tf), a) ∧
      a.Reduce Eval line scope [f] =
        (.error (Error.PARAMTYPEERROR line "first" "reduce" "*Function" tf), a) ∧
      a.Merge line [m] =
        (.error (Error.PARAMTYPEERROR line "first" "merge" "*Array" tm), a) := by
  refine ⟨?_, ?_, ?_, ?_⟩
  · cases f <;> simp_all [Object.Type, Array.Filter, paramTypeError]
  · cases f <;> simp_all [Object.Type, Array.Map, paramTypeError]
  · cases f <;> simp_all [Object.Type, Array.Reduce, paramTypeError]
  · cases m <;> simp_all [Object.Type, Array.Merge, paramTypeError]

/-- The amended C16 at the argument 1 on the empty array. -/
theorem ParamTypeError_on_wrong_kind_witness :
    (Object.Integer 1).Type = .ok ObjectType.INTEGER_OBJ ∧
      ObjectType.INTEGER_OBJ ≠ ObjectType.FUNCTION_OBJ ∧
      ObjectType.INTEGER_OBJ ≠ ObjectType.ARRAY_OBJ ∧
      (Array.Filter ⟨[]⟩ evalDouble "1" emptyScope [Object.Integer 1] =
          (.error (Error.PARAMTYPEERROR "1" "first" "filter" "*Function"
            ObjectType.INTEGER_OBJ), ⟨[]⟩) ∧
        Array.Map ⟨[]⟩ evalDouble "1" emptyScope [Object.Integer 1] =
          (.error (Error.PARAMTYPEERROR "1" "first" "map" "*Function"
            ObjectType.INTEGER_OBJ), ⟨[]⟩) ∧
        Array.Reduce ⟨[]⟩ evalDouble "1" emptyScope [Object.Integer 1] =
          (.error (Error.PARAMTYPEERROR "1" "first" "reduce" "*Function"
            ObjectType.INTEGER_OBJ), ⟨[]⟩) ∧
        Array.Merge ⟨[]⟩ "1" [Object.Integer 1] =
          (.error (Error.PARAMTYPEERROR "1" "first" "merge" "*Array"
            ObjectType.INTEGER_OBJ), ⟨[]⟩)) :=
  ⟨rfl, by decide, by decide,
    ParamTypeError_on_wrong_kind evalDouble ⟨[]⟩ "1" emptyScope (Object.Integer 1)
      (Object.Integer 1) ObjectType.INTEGER_OBJ ObjectType.INTEGER_OBJ rfl (by decide) rfl
      (by decide)⟩

/-- C17: `UnmarshalJSON` leaves the array of the receiver as it was, on every
input: the results are assigned to the local variable only.  On the array `[1]`
the text `null` is reported as success and the array still holds 1; so it does
for a text parsed as a list of two elements, whose converted members reach
only the local variable.  A parsed value that is not a list gives the error
text `object is not a array`. -/
theorem UnmarshalJSON_receiver_unchanged (a : Array)
    (jsonUnmarshal : String → Except String JsonValue)
    (unmarshalArray : List JsonValue → Object × Option String) (b : String) :
    (a.UnmarshalJSON jsonUnmarshal unmarshalArray b).receiver = a ∧
      Array.UnmarshalJSON ⟨[Object.Integer 1]⟩ jsonUnmarshal unmarshalArray "null" =
        ⟨.ok none, ⟨[Object.Integer 1]⟩, ⟨[]⟩⟩ ∧
      Array.UnmarshalJSON ⟨[Object.Integer 1]⟩
          (fun _ => .ok (JsonValue.array [JsonValue.string "a", JsonValue.string "b"]))
          (fun elems => (Object.Array (elems.map (fun _ => Object.String "s")), none))
          "[\"a\",\"b\"]" =
        ⟨.ok none, ⟨[Object.Integer 1]⟩, ⟨[Object.String "s", Object.String "s"]⟩⟩ ∧
      Array.UnmarshalJSON ⟨[Object.Integer 1]⟩ (fun _ => .ok (JsonValue.number 0))
          unmarshalArray "0" =
        ⟨.ok (some "object is not a array"), ⟨[Object.Integer 1]⟩, ⟨[]⟩⟩ := by
  refine ⟨?_, ?_, ?_, ?_⟩
  · unfold Array.UnmarshalJSON
    split
    · rfl
    · split
      · rfl
      · split <;> rfl
      · rfl
  · simp [Array.UnmarshalJSON]
  · simp [Array.UnmarshalJSON]
  · simp [Array.UnmarshalJSON]

/-- The marshalling loop, once past the first member, appends a comma and the
text of each member whose serialization succeeds. -/
theorem marshalLoop_ok (marshalJsonObject : Object → Except String String)
    (ms : List Object) (outs : List String)
    (h : List.Forall₂ (fun v r => marshalJsonObject v = .ok r) ms outs)
    (k : Nat) (out : String) :
    marshalLoop marshalJsonObject ms (k + 1) out = .ok (out ++ commaPrefixed outs) := by
  induction h generalizing k out with
  | nil => simp [marshalLoop, commaPrefixed]
  | cons hv _ ih =>
    simp only [marshalLoop, hv]
    rw [ih]
    simp [commaPrefixed, String.append_assoc]

/-- The marshalling loop stops with the error of the first member whose
serialization fails. -/
theorem marshalLoop_error (marshalJsonObject : Object → Except String String)
    (pre : List Object) (outs : List String)
    (h : List.Forall₂ (fun v r => marshalJsonObject v = .ok r) pre outs)
    (v : Object) (post : List Object) (e : String) (hv : marshalJsonObject v = .error e)
    (k : Nat) (out : String) :
    marshalLoop marshalJsonObject (pre ++ v :: post) k out = .error e := by
  induction h generalizing k out with
  | nil => simp [marshalLoop, hv]
  | cons hw _ ih =>
    simp only [List.cons_append, marshalLoop, hw]
    exact ih _ _

/-- C18: `MarshalJSON` of an empty array gives the text `null`, not `[]`, and no
error; of a non-empty array whose members all serialize it gives `[`, the
texts of the members in order separated by single commas, and `]`; when the
serialization of a member fails (the members before it succeeding) it gives
the empty text and the error of that member. -/
theorem MarshalJSON_text (marshalJsonObject : Object → Except String String) :
    Array.MarshalJSON ⟨[]⟩ marshalJsonObject = ("null", none) ∧
      "null" ≠ "[]" ∧
      (∀ (x : Object) (xs : List Object) (outs : List String),
        List.Forall₂ (fun v r => marshalJsonObject v = .ok r) (x :: xs) outs →
        Array.MarshalJSON ⟨x :: xs⟩ marshalJsonObject =
          ("[" ++ commaSeparated outs ++ "]", none)) ∧
      (∀ (pre : List Object) (outs : List String) (v : Object) (post : List Object)
          (e : String),
        List.Forall₂ (fun w r => marshalJsonObject w = .ok r) pre outs →
        marshalJsonObject v = .error e →
        Array.MarshalJSON ⟨pre ++ v :: post⟩ marshalJsonObject = ("", some e)) := by
  refine ⟨by simp [Array.MarshalJSON], by decide, ?_, ?_⟩
  · intro x xs outs h
    cases h with
    | cons hx hrest =>
      simp only [Array.MarshalJSON, List.length_cons, Nat.add_one_ne_zero, if_false, marshalLoop,
        hx, ne_eq, not_true_eq_false]
      rw [marshalLoop_ok marshalJsonObject xs _ hrest]
      simp [commaSeparated, String.append_assoc]
  · intro pre outs v post e h hv
    have hne : (pre ++ v :: post).length ≠ 0 := by simp
    simp only [Array.MarshalJSON, hne, if_false]
    rw [marshalLoop_error marshalJsonObject pre outs h v post e hv]

/-- Setting a name leaves the lookup of every other name as it was. -/
theorem Scope.Get_Set_ne (s : Scope) (p n : String) (v : Object) (h : n ≠ p) :
    (s.Set p v).Get n = s.Get n := by
  cases s with
  | mk store parent =>
    cases parent with
    | none => simp [Scope.Set, Scope.Get, h]
    | some q => simp [Scope.Set, Scope.Get, h]

/-- In the trace of `Map`, the scope of an invocation is the scope the
invocation before it left, with the parameter rebound to the next member. -/
theorem mapScopes_next (Eval : Evaluator) (body : BlockStatement) (p : String)
    (ms : List Object) (s : Scope) (i : Nat) (t u : Scope)
    (ht : (mapScopes Eval body p ms s)[i]? = some t)
    (hu : (mapScopes Eval body p ms s)[i + 1]? = some u) :
    ∃ x, ms[i + 1]? = some x ∧ u = (Eval body t).2.Set p x := by
  induction ms generalizing s i with
  | nil => simp [mapScopes] at ht
  | cons y ys ih =>
    cases i with
    | zero =>
      simp [mapScopes] at ht
      subst ht
      cases ys with
      | nil => simp [mapScopes] at hu
      | cons z zs =>
        simp [mapScopes] at hu
        exact ⟨z, by simp, hu.symm⟩
    | succ j =>
      simp only [mapScopes, List.getElem?_cons_succ] at ht hu
      obtain ⟨x, hx, hux⟩ := ih _ j ht hu
      exact ⟨x, by simpa using hx, hux⟩

/-- The loop of `Filter` keeps, after the members it starts with, the members
whose invocation, run in the scope of `mapScopes` at their position, gives a
truthy object. -/
theorem filterLoop_eq (Eval : Evaluator) (block : FunctionLiteral) (p : String)
    (hp : paramName block 0 = .ok p) (ms : List Object) (s : Scope) (acc : List Object) :
    filterLoop Eval block ms s acc =
      .ok (acc ++ ((ms.zip (mapScopes Eval block.Body p ms s)).filter
        (fun xt => IsTrue (Eval block.Body xt.2).1)).map Prod.fst) := by
  induction ms generalizing s acc with
  | nil => simp [filterLoop, mapScopes]
  | cons x xs ih =>
    simp only [filterLoop, hp, mapScopes, List.zip_cons_cons, List.filter_cons]
    split
    · rw [ih]
      simp
    · rw [ih]

/-- The loop of `Reduce` returns the accumulator it starts with when no member
is left, and otherwise the unwrapped result of the invocation in the last
scope of `reduceScopes`. -/
theorem reduceLoop_eq (Eval : Evaluator) (block : FunctionLiteral) (p0 p1 : String)
    (hp0 : paramName block 0 = .ok p0) (hp1 : paramName block 1 = .ok p1)
    (ms : List Object) (s : Scope) (r : Object) :
    reduceLoop Eval block ms s r =
      .ok (((reduceScopes Eval block.Body p0 p1 ms s r).map
        (fun t => unwrapReturnValue (Eval block.Body t).1)).getLastD r) := by
  induction ms generalizing s r with
  | nil => simp [reduceLoop, reduceScopes]
  | cons m rest ih =>
    simp only [reduceLoop, hp0, hp1, bind, Except.bind]
    rw [ih]
    simp only [reduceScopes, List.map_cons, List.getLastD_cons]

/-- In the trace of `Reduce`, the scope of an invocation is the scope the
invocation before it left, with the two parameters rebound. -/
theorem reduceScopes_next (Eval : Evaluator) (body : BlockStatement) (p0 p1 : String)
    (ms : List Object) (s : Scope) (r : Object) (i : Nat) (t u : Scope)
    (ht : (reduceScopes Eval body p0 p1 ms s r)[i]? = some t)
    (hu : (reduceScopes Eval body p0 p1 ms s r)[i + 1]? = some u) :
    ∃ acc x, ms[i + 1]? = some x ∧ u = ((Eval body t).2.Set p0 acc).Set p1 x := by
  induction ms generalizing s r i with
  | nil => simp [reduceScopes] at ht
  | cons y ys ih =>
    cases i with
    | zero =>
      simp [reduceScopes] at ht
      subst ht
      cases ys with
      | nil => simp [reduceScopes] at hu
      | cons z zs =>
        simp [reduceScopes] at hu
        exact ⟨_, z, by simp, hu.symm⟩
    | succ j =>
      simp only [reduceScopes, List.getElem?_cons_succ] at ht hu
      obtain ⟨acc, x, hx, hux⟩ := ih _ _ j ht hu
      exact ⟨acc, x, by simpa using hx, hux⟩

/-- C19, as stated, fails: in `map` over `[1,1]` with a body that binds the
name `seen`, the invocation for the second member finds the name bound by the
invocation for the first and gives true, while the same body run in a fresh
child scope with the same binding of the parameter gives false. -/
theorem Map_scope_leaks :
    Array.Map ⟨[Object.Integer 1, Object.Integer 1]⟩ evalMarking "1" emptyScope
        [Object.Function ⟨[Expression.Identifier "x"], ⟨"seen"⟩⟩]
      = (.ok (Object.Array [Object.Boolean false, Object.Boolean true]),
          ⟨[Object.Integer 1, Object.Integer 1]⟩) ∧
      (evalMarking ⟨"seen"⟩ ((NewScope emptyScope).Set "x" (Object.Integer 1))).1
        = Object.Boolean false := by
  constructor
  · simp [Array.Map, mapLoop, paramName, evalMarking, NewScope, Scope.Set, Scope.Get,
      emptyScope, unwrapReturnValue]
  · simp [evalMarking, NewScope, Scope.Set, Scope.Get, emptyScope]

/-- C19, amended: `map`, `filter` and `reduce` make one child scope of the scope
of the caller per call and evaluate every invocation of the body in it.  For
`map` and `filter` the scopes of the invocations are those of `mapScopes`: the
first is the new child scope with the parameter bound to member 0, and each
later one is the scope the invocation before it left, with the parameter
rebound, so that every other name bound there is still visible.  For `reduce`
without a seed the first invocation runs in the new child scope with the two
parameters bound to members 0 and 1, and each later one in the scope the
invocation before it left with the two parameters rebound. -/
theorem Scope_shared_by_invocations (Eval : Evaluator) (a : Array) (line : String)
    (scope : Scope) (p p0 p1 : String) (body : BlockStatement) (x0 x1 : Object)
    (rest : List Object) :
    a.Map Eval line scope [Object.Function ⟨[Expression.Identifier p], body⟩] =
        (.ok (Object.Array ((mapScopes Eval body p a.Members (NewScope scope)).map
          (fun t => unwrapReturnValue (Eval body t).1))), a) ∧
      a.Filter Eval line scope [Object.Function ⟨[Expression.Identifier p], body⟩] =
        (.ok (Object.Array (((a.Members.zip
          (mapScopes Eval body p a.Members (NewScope scope))).filter
            (fun xt => IsTrue (Eval body xt.2).1)).map Prod.fst)), a) ∧
      (mapScopes Eval body p a.Members (NewScope scope)).head? =
        a.Members.head?.map (fun x => (NewScope scope).Set p x) ∧
      (∀ (i : Nat) (t u : Scope),
        (mapScopes Eval body p a.Members (NewScope scope))[i]? = some t →
        (mapScopes Eval body p a.Members (NewScope scope))[i + 1]? = some u →
        (∃ x, a.Members[i + 1]? = some x ∧ u = (Eval body t).2.Set p x) ∧
          ∀ (n : String) (v : Object), n ≠ p → (Eval body t).2.Get n = some v →
            u.Get n = some v) ∧
      Array.Reduce ⟨x0 :: x1 :: rest⟩ Eval line scope
          [Object.Function ⟨[Expression.Identifier p0, Expression.Identifier p1], body⟩] =
        (.ok (((reduceScopes Eval body p0 p1 rest
            (Eval body (((NewScope scope).Set p0 x0).Set p1 x1)).2
            (Eval body (((NewScope scope).Set p0 x0).Set p1 x1)).1).map
              (fun t => unwrapReturnValue (Eval body t).1)).getLastD
            (Eval body (((NewScope scope).Set p0 x0).Set p1 x1)).1),
          ⟨x0 :: x1 :: rest⟩) ∧
      (∀ (i : Nat) (t u : Scope),
        ((((NewScope scope).Set p0 x0).Set p1 x1) :: reduceScopes Eval body p0 p1 rest
            (Eval body (((NewScope scope).Set p0 x0).Set p1 x1)).2
            (Eval body (((NewScope scope).Set p0 x0).Set p1 x1)).1)[i]? = some t →
        ((((NewScope scope).Set p0 x0).Set p1 x1) :: reduceScopes Eval body p0 p1 rest
            (Eval body (((NewScope scope).Set p0 x0).Set p1 x1)).2
            (Eval body (((NewScope scope).Set p0 x0).Set p1 x1)).1)[i + 1]? = some u →
        ∃ acc x, u = ((Eval body t).2.Set p0 acc).Set p1 x) := by
  have hp : paramName (⟨[Expression.Identifier p], body⟩ : FunctionLiteral) 0 = .ok p := by
    simp [paramName]
  have hq0 : paramName
      (⟨[Expression.Identifier p0, Expression.Identifier p1], body⟩ : FunctionLiteral) 0
      = .ok p0 := by
    simp [paramName]
  have hq1 : paramName
      (⟨[Expression.Identifier p0, Expression.Identifier p1], body⟩ : FunctionLiteral) 1
      = .ok p1 := by
    simp [paramName]
  refine ⟨?_, ?_, ?_, ?_, ?_, ?_⟩
  · simp only [Array.Map, List.length_cons, List.length_nil]
    rw [mapLoop_eq Eval _ p hp]
    simp
  · simp only [Array.Filter, List.length_cons, List.length_nil]
    rw [filterLoop_eq Eval _ p hp]
    simp
  · cases a.Members with
    | nil => simp [mapScopes]
    | cons y ys => simp [mapScopes]
  · intro i t u ht hu
    obtain ⟨x, hx, hux⟩ := mapScopes_next Eval body p a.Members (NewScope scope) i t u ht hu
    refine ⟨⟨x, hx, hux⟩, ?_⟩
    intro n v hn hv
    rw [hux, Scope.Get_Set_ne _ p n x hn]
    exact hv
  · simp only [Array.Reduce, List.length_cons, List.length_nil, reduceInit, hq0, hq1, memberAt,
      bind, Except.bind, pure, Except.pure]
    simp only [reduceLoop_eq Eval _ p0 p1 hq0 hq1]
    simp
  · intro i t u ht hu
    cases i with
    | zero =>
      simp at ht
      subst ht
      cases rest with
      | nil => simp [reduceScopes] at hu
      | cons z zs =>
        simp [reduceScopes] at hu
        exact ⟨_, z, hu.symm⟩
    | succ j =>
      simp only [List.getElem?_cons_succ] at ht hu
      obtain ⟨acc, x, _, hux⟩ := reduceScopes_next Eval body p0 p1 rest _ _ j t u ht hu
      exact ⟨acc, x, hux⟩

/-- With an evaluator that, started in the memory `mem`, always returns and
leaves `mem` as it is, the loop of `Map` over slots holding the members `ms`
does what the loop without effects does on `ms`. -/
theorem mapRange_quiet (Eval : EffectfulEvaluator) (block : FunctionLiteral) (mem : Memory)
    (hquiet : ∀ s : Scope, ∃ v t, Eval block.Body s mem = ⟨.ok v, t, mem⟩)
    (ms : List Object) (i : Nat) (hs : ∀ (j : Nat) (x : Object), ms[j]? = some x →
      mem.slots (i + j) = x) (s : Scope) (acc : List Object) :
    mapRange Eval block ms.length i s mem acc =
      (mapLoop (atMemory Eval mem) block ms s acc, mem) := by
  induction ms generalizing i s acc with
  | nil => simp [mapRange, mapLoop]
  | cons x xs ih =>
    have hx : mem.slots i = x := by
      have h0 := hs 0 x (by simp)
      simpa using h0
    have hs1 : ∀ (j : Nat) (y : Object), xs[j]? = some y → mem.slots (i + 1 + j) = y := by
      intro j y hy
      have h1 := hs (j + 1) y (by simpa using hy)
      rw [← h1]
      congr 1
      omega
    simp only [List.length_cons, mapRange, mapLoop, hx]
    cases hname : paramName block 0 with
    | error e => rfl
    | ok name =>
      obtain ⟨v, t, hvt⟩ := hquiet (s.Set name x)
      simp only [hvt, atMemory]
      exact ih (i + 1) hs1 t _

/-- The slots of the memory of an array hold its members. -/
theorem Array.memory_slots (a : Array) (j : Nat) (x : Object) (h : a.Members[j]? = some x) :
    a.memory.slots (0 + j) = x := by
  simp [Array.memory, List.getD_eq_getElem?_getD, h]

/-- The method `Map` run with an evaluator without effects is `Array.Map`. -/
theorem MapRun_withoutEffects (Eval : Evaluator) (a : Array) (line : String) (scope : Scope)
    (args : List Object) :
    a.MapRun (withoutEffects Eval) line scope args = a.Map Eval line scope args := by
  unfold Array.MapRun Array.Map
  split
  · rfl
  · split
    · rename_i block rest hlen
      have hq : ∀ s : Scope, ∃ v t,
          withoutEffects Eval block.Body s a.memory = ⟨.ok v, t, a.memory⟩ :=
        fun s => ⟨_, _, rfl⟩
      have hE : atMemory (withoutEffects Eval) a.memory = Eval := by
        funext body s
        simp [atMemory, withoutEffects]
      simp only [mapRange_quiet (withoutEffects Eval) block a.memory hq a.Members 0
        (Array.memory_slots a), hE]
      cases mapLoop Eval block a.Members (NewScope scope) [] <;> simp [Array.memory]
    · rfl
    · rfl

/-- C1, as stated, fails: in `a.map(fn(x) { a.push(x); x })`, with `a` bound to
the receiver `[1,2]` in the scope of the caller, the call returns `[1,2]` and leaves the receiver with the members
`[1,2,1,2]`; and with a body that panics, `[].pop()`, the call returns no
array and panics with the error of the body. -/
theorem Map_body_changes_receiver :
    Array.MapRun ⟨[Object.Integer 1, Object.Integer 2]⟩ evalPushOntoReceiver "1"
        (emptyScope.Set "a" (Object.Array [Object.Integer 1, Object.Integer 2]))
        [Object.Function ⟨[Expression.Identifier "x"], ⟨"a.push(x); x"⟩⟩]
      = (.ok (Object.Array [Object.Integer 1, Object.Integer 2]),
          ⟨[Object.Integer 1, Object.Integer 2, Object.Integer 1, Object.Integer 2]⟩) ∧
      Array.MapRun ⟨[Object.Integer 1, Object.Integer 2]⟩ evalPopEmpty "1" emptyScope
        [Object.Function ⟨[Expression.Identifier "x"], ⟨"[].pop()"⟩⟩]
      = (.error (Error.INDEXERROR "1" (-1)), ⟨[Object.Integer 1, Object.Integer 2]⟩) := by
  constructor
  · simp [Array.MapRun, mapRange, paramName, evalPushOntoReceiver, Array.memory, NewScope,
      Scope.Set, Scope.Get, emptyScope, unwrapReturnValue]
  · simp [Array.MapRun, mapRange, paramName, evalPopEmpty, Array.memory]

/-- C1, amended: for every array A and every closure with one declared
parameter p whose body, whenever it is evaluated, returns and leaves the
memory of A as it is, `A.map(f)` returns a new array R of the length of A in
which R[i] comes from evaluating the body in the scope of round i, where p is
bound to A[i]: the inner value when the evaluation gives a `ReturnValue`, the
object itself otherwise; the members of A are unchanged.
`[1,2,3].map(x -> x * 2)` is `[2,4,6]` and `[1,2].map(fn(x) { return x * 2 })`
is `[2,4]`. -/
theorem Map_elementwise (Eval : EffectfulEvaluator) (a : Array) (line : String)
    (scope : Scope) (p : String) (body : BlockStatement)
    (hquiet : ∀ s : Scope, ∃ v t, Eval body s a.memory = ⟨.ok v, t, a.memory⟩) :
    ∃ R : List Object,
      a.MapRun Eval line scope [Object.Function ⟨[Expression.Identifier p], body⟩]
          = (.ok (Object.Array R), a) ∧
        R.length = a.Members.length ∧
        (∀ (i : Nat) (x : Object), a.Members[i]? = some x →
          ∃ (t : Scope) (v : Object),
            (mapScopes (atMemory Eval a.memory) body p a.Members (NewScope scope))[i]? = some t ∧
            t.Get p = some x ∧
            (Eval body t a.memory).result = .ok v ∧
            (∀ w, v = Object.ReturnValue w → R[i]? = some w) ∧
            ((∀ w, v ≠ Object.ReturnValue w) → R[i]? = some v)) ∧
        Array.MapRun ⟨[Object.Integer 1, Object.Integer 2, Object.Integer 3]⟩
            (withoutEffects evalTimesTwo) line emptyScope
            [Object.Function ⟨[Expression.Identifier "x"], ⟨"x * 2"⟩⟩]
          = (.ok (Object.Array [Object.Integer 2, Object.Integer 4, Object.Integer 6]),
              ⟨[Object.Integer 1, Object.Integer 2, Object.Integer 3]⟩) ∧
        Array.MapRun ⟨[Object.Integer 1, Object.Integer 2]⟩
            (withoutEffects evalTimesTwo) line emptyScope
            [Object.Function ⟨[Expression.Identifier "x"], ⟨"return x * 2"⟩⟩]
          = (.ok (Object.Array [Object.Integer 2, Object.Integer 4]),
              ⟨[Object.Integer 1, Object.Integer 2]⟩) := by
  have hp : paramName (⟨[Expression.Identifier p], body⟩ : FunctionLiteral) 0 = .ok p := by
    simp [paramName]
  refine ⟨(mapScopes (atMemory Eval a.memory) body p a.Members (NewScope scope)).map
      (fun t => unwrapReturnValue (atMemory Eval a.memory body t).1), ?_, ?_, ?_, ?_, ?_⟩
  · simp only [Array.MapRun, List.length_cons, List.length_nil]
    rw [mapRange_quiet Eval ⟨[Expression.Identifier p], body⟩ a.memory hquiet a.Members 0
      (Array.memory_slots a)]
    rw [mapLoop_eq (atMemory Eval a.memory) _ p hp]
    simp [Array.memory]
  · simp [mapScopes_length]
  · intro i x hx
    obtain ⟨t, ht, hg⟩ :=
      mapScopes_bound (atMemory Eval a.memory) body p a.Members (NewScope scope) i x hx
    obtain ⟨v, t1, hv⟩ := hquiet t
    have hval : (atMemory Eval a.memory body t).1 = v := by simp [atMemory, hv]
    refine ⟨t, v, ht, hg, by rw [hv], ?_, ?_⟩
    · intro w hw
      subst hw
      simp [ht, hval, unwrapReturnValue]
    · intro hnot
      cases v with
      | ReturnValue w => exact absurd rfl (hnot w)
      | _ => simp [ht, hval, unwrapReturnValue]
  · simp [Array.MapRun, mapRange, paramName, withoutEffects, evalTimesTwo, Array.memory,
      NewScope, Scope.Set, Scope.Get, emptyScope, unwrapReturnValue]
  · simp [Array.MapRun, mapRange, paramName, withoutEffects, evalTimesTwo, Array.memory,
      NewScope, Scope.Set, Scope.Get, emptyScope, unwrapReturnValue]

/-- The amended C1 at `[1,2].map(fn(x) { return x * 2 })`. -/
theorem Map_elementwise_witness :
    (∀ s : Scope, ∃ v t,
        withoutEffects evalTimesTwo ⟨"return x * 2"⟩ s
            (Array.memory ⟨[Object.Integer 1, Object.Integer 2]⟩)
          = ⟨.ok v, t, Array.memory ⟨[Object.Integer 1, Object.Integer 2]⟩⟩) ∧
      ∃ R : List Object,
        Array.MapRun ⟨[Object.Integer 1, Object.Integer 2]⟩ (withoutEffects evalTimesTwo) "1"
            emptyScope [Object.Function ⟨[Expression.Identifier "x"], ⟨"return x * 2"⟩⟩]
          = (.ok (Object.Array R), ⟨[Object.Integer 1, Object.Integer 2]⟩) ∧
        R.length = (⟨[Object.Integer 1, Object.Integer 2]⟩ : Array).Members.length ∧
        (∀ (i : Nat) (x : Object),
          (⟨[Object.Integer 1, Object.Integer 2]⟩ : Array).Members[i]? = some x →
          ∃ (t : Scope) (v : Object),
            (mapScopes (atMemory (withoutEffects evalTimesTwo)
                (Array.memory ⟨[Object.Integer 1, Object.Integer 2]⟩)) ⟨"return x * 2"⟩ "x"
              (⟨[Object.Integer 1, Object.Integer 2]⟩ : Array).Members
              (NewScope emptyScope))[i]? = some t ∧
            t.Get "x" = some x ∧
            (withoutEffects evalTimesTwo ⟨"return x * 2"⟩ t
              (Array.memory ⟨[Object.Integer 1, Object.Integer 2]⟩)).result = .ok v ∧
            (∀ w, v = Object.ReturnValue w → R[i]? = some w) ∧
            ((∀ w, v ≠ Object.ReturnValue w) → R[i]? = some v)) ∧
        Array.MapRun ⟨[Object.Integer 1, Object.Integer 2, Object.Integer 3]⟩
            (withoutEffects evalTimesTwo) "1" emptyScope
            [Object.Function ⟨[Expression.Identifier "x"], ⟨"x * 2"⟩⟩]
          = (.ok (Object.Array [Object.Integer 2, Object.Integer 4, Object.Integer 6]),
              ⟨[Object.Integer 1, Object.Integer 2, Object.Integer 3]⟩) ∧
        Array.MapRun ⟨[Object.Integer 1, Object.Integer 2]⟩
            (withoutEffects evalTimesTwo) "1" emptyScope
            [Object.Function ⟨[Expression.Identifier "x"], ⟨"return x * 2"⟩⟩]
          = (.ok (Object.Array [Object.Integer 2, Object.Integer 4]),
              ⟨[Object.Integer 1, Object.Integer 2]⟩) :=
  ⟨fun _ => ⟨_, _, rfl⟩,
    Map_elementwise (withoutEffects evalTimesTwo) ⟨[Object.Integer 1, Object.Integer 2]⟩ "1"
      emptyScope "x" ⟨"return x * 2"⟩ (fun _ => ⟨_, _, rfl⟩)⟩

end Monkey
